import Mathlib

/-!
Verification of the Meal_plan_GenAI repository (three Streamlit variants:
`ai_meal_pexels.py`, `meal_text.py`, `meal_hugging.py`).

The development shallowly embeds the nutrition calculator, the plan / grocery
text parsers (Python `re`-based), and the image-resolver control flow.  Real
arithmetic (Python floats on small decimal inputs) is modelled by exact
rationals; Python strings are modelled by `List Char` with `String` wrappers
at the record boundaries; the external HTTP collaborators are modelled as
oracle functions, with a thrown `requests` exception modelled by `Except`.
-/

/-! ## Python character classes and string helpers -/

/-- Python's whitespace class (`str.strip`, regex `\s`): the ASCII whitespace
characters together with the common Unicode whitespace used by `str`. -/
def pyIsSpace (c : Char) : Bool :=
  c = ' ' || c = '\t' || c = '\n' || c = '\r' || c = '\x0b' || c = '\x0c' ||
  c = '\x1c' || c = '\x1d' || c = '\x1e' || c = '\x1f' || c = '\x85' ||
  c = '\xa0' || c = ' ' || c = ' '

/-- Line boundaries recognised by Python's `str.splitlines`. -/
def isLineBreak (c : Char) : Bool :=
  c = '\n' || c = '\r' || c = '\x0b' || c = '\x0c' ||
  c = '\x1c' || c = '\x1d' || c = '\x1e' || c = '\x85' ||
  c = ' ' || c = ' '

/-- Remove trailing whitespace (the right half of Python `str.strip`). -/
def dropTrailingWs (l : List Char) : List Char :=
  (l.reverse.dropWhile pyIsSpace).reverse

/-- Python `str.strip()`: remove leading and trailing whitespace. -/
def pyStrip (l : List Char) : List Char :=
  dropTrailingWs (l.dropWhile pyIsSpace)

/-- Python `str.lower()` (ASCII case mapping, which is all the app feeds it). -/
def pyLower (l : List Char) : List Char := l.map Char.toLower

/-- Python `str.lstrip("- ")`: drop leading `'-'` and `' '` characters. -/
def lstripDashSpace (l : List Char) : List Char :=
  l.dropWhile (fun c => c = '-' || c = ' ')

/-- Python `text.split(sep)[0]`: the prefix of `text` before the first occurrence of
the (non-empty) separator `sep`; the whole text when `sep` does not occur. -/
def pySplitFirstAux (sep : List Char) : List Char → List Char → List Char
  | [], acc => acc.reverse
  | c :: rest, acc =>
      if sep.isPrefixOf (c :: rest) then acc.reverse
      else pySplitFirstAux sep rest (c :: acc)

def pySplitFirst (sep l : List Char) : List Char :=
  pySplitFirstAux sep l []

/-- After a carriage return, `str.splitlines` absorbs one immediately
following line feed (`\r\n` is a single boundary). -/
def dropLeadingLf : List Char → List Char
  | [] => []
  | c :: r => if c = '\n' then r else c :: r

theorem dropLeadingLf_length (l : List Char) :
    (dropLeadingLf l).length ≤ l.length := by
  cases l with
  | nil => simp [dropLeadingLf]
  | cons c r =>
      simp only [dropLeadingLf]
      split <;> simp

/-- Python `str.splitlines()`: split at line boundaries (`\r\n` counts as a
single boundary), no trailing empty line.  Each step consumes at least one
character and `dropLeadingLf` never lengthens the text, so `fuel = length`
suffices for a complete scan. -/
def pySplitLinesAux : Nat → List Char → List Char → List (List Char)
  | _, [], acc => if acc.isEmpty then [] else [acc.reverse]
  | 0, _ :: _, acc => [acc.reverse]
  | fuel + 1, c :: rest, acc =>
      if c = '\r' then acc.reverse :: pySplitLinesAux fuel (dropLeadingLf rest) []
      else if isLineBreak c then acc.reverse :: pySplitLinesAux fuel rest []
      else pySplitLinesAux fuel rest (c :: acc)

def pySplitLines (l : List Char) : List (List Char) :=
  pySplitLinesAux l.length l []

/-! ## Energy and macro calculator

Source: `meal_text.py` lines 35-54, `ai_meal_pexels.py` lines 69-94,
`meal_hugging.py` lines 67-92 (the arithmetic is identical across variants;
the activity table of `meal_text.py` lacks the `Extra_Active` row). -/

/-- Mifflin-St Jeor BMR exactly as computed in the sidebar:
`if gender == "Male": bmr = 10*weight + 6.25*height - 5*age + 5` etc. -/
def bmr (gender : String) (weight height age : ℚ) : ℚ :=
  if gender = "Male" then 10 * weight + 6.25 * height - 5 * age + 5
  else if gender = "Female" then 10 * weight + 6.25 * height - 5 * age - 161
  else 10 * weight + 6.25 * height - 5 * age

/-- The `activity_factors` dict of `ai_meal_pexels.py` (5 levels); a Python
dict lookup, hence `Option`-valued on arbitrary keys. -/
def activity_factors (l : String) : Option ℚ :=
  if l = "Sedentary" then some 1.2
  else if l = "Light" then some 1.375
  else if l = "Moderate" then some 1.55
  else if l = "Active" then some 1.725
  else if l = "Extra_Active" then some 1.9
  else none

/-- The `activity_factors` dict of `meal_text.py` / `meal_hugging.py`
(4 levels, no `Extra_Active`). -/
def activity_factors_text (l : String) : Option ℚ :=
  if l = "Sedentary" then some 1.2
  else if l = "Light" then some 1.375
  else if l = "Moderate" then some 1.55
  else if l = "Active" then some 1.725
  else none

/-- Source: `tdee = bmr * activity_factors[activity_level]`. -/
def tdee (bmrVal : ℚ) (l : String) : Option ℚ :=
  (activity_factors l).map (fun f => bmrVal * f)

/-- Source: `calorie_goal = tdee * 0.7 if goal == "Fat Loss" else tdee`. -/
def calorie_goal (t : ℚ) (goal : String) : ℚ :=
  if goal = "Fat Loss" then t * 0.7 else t

/-- Source: `lbm_kg = weight * (1 - body_fat_percent / 100)`. -/
def lbm_kg (weight body_fat_percent : ℚ) : ℚ :=
  weight * (1 - body_fat_percent / 100)

/-- Python's `round` on an exact value: round half to even (banker's
rounding), as used by `round(x, 1)` and `round(x)`. -/
def roundHalfEven (q : ℚ) : ℤ :=
  if Int.fract q < 1 / 2 then ⌊q⌋
  else if 1 / 2 < Int.fract q then ⌊q⌋ + 1
  else if ⌊q⌋ % 2 = 0 then ⌊q⌋ else ⌊q⌋ + 1

/-- Python `round(x, 1)`. -/
def pyRound1 (x : ℚ) : ℚ := (roundHalfEven (x * 10) : ℚ) / 10

/-- Source: `protein_target = round(lbm_kg * 1.8, 1)`. -/
def protein_target (lbm : ℚ) : ℚ := pyRound1 (lbm * 1.8)

/-! ## Image resolver, search strategy (`ai_meal_pexels.py` lines 22-49) -/

/-- Source: `simplify` is `text.lower().split(",")[0].split("with")[0].strip()`. -/
def simplify (text : String) : String :=
  String.mk (pyStrip (pySplitFirst ("with".data) (pySplitFirst (",".data) (pyLower text.data))))

/-- Behaviour of one `requests.get` call against the Pexels search endpoint:
either the call raises, or it returns a status code and the decoded
`photos` list (already projected to the `src.medium` URLs). -/
inductive HttpOutcome where
  | exn (msg : String)
  | resp (status : Nat) (photos : List String)
deriving DecidableEq

/-- Function `call_pexels_api` (lines 25-38).  There is no `try`/`except` in the
source, so a raised exception surfaces as `Except.error`; a missing key,
a non-200 status or an empty `photos` array give `.ok none`. -/
def call_pexels_api (apiKey : Option String) (net : String → HttpOutcome)
    (query : String) : Except String (Option String) :=
  match apiKey with
  | none => Except.ok none
  | some _ =>
      match net query with
      | HttpOutcome.exn e => Except.error e
      | HttpOutcome.resp status photos =>
          if status = 200 then
            match photos with
            | [] => Except.ok none
            | u :: _ => Except.ok (some u)
          else Except.ok none

/-- Source: `fallback_queries = [meal_name, simplify(meal_name), "healthy food"]`. -/
def fallback_queries (meal_name : String) : List String :=
  [meal_name, simplify meal_name, "healthy food"]

/-- The `for q in fallback_queries` loop of `search_pexels`: stop at the
first truthy result; a raised exception propagates. -/
def searchLoop (call : String → Except String (Option String)) :
    List String → Except String (Option String)
  | [] => Except.ok none
  | q :: qs =>
      match call q with
      | Except.error e => Except.error e
      | Except.ok (some r) => Except.ok (some r)
      | Except.ok none => searchLoop call qs

/-- Same loop, also recording the queries actually passed to
`call_pexels_api` (in order), to reason about the number of calls made. -/
def searchTrace (call : String → Except String (Option String)) :
    List String → List String × Except String (Option String)
  | [] => ([], Except.ok none)
  | q :: qs =>
      match call q with
      | Except.error e => ([q], Except.error e)
      | Except.ok (some r) => ([q], Except.ok (some r))
      | Except.ok none =>
          let t := searchTrace call qs
          (q :: t.1, t.2)

/-- Function `search_pexels` (lines 40-46). -/
def search_pexels (apiKey : Option String) (net : String → HttpOutcome)
    (meal_name : String) : Except String (Option String) :=
  searchLoop (call_pexels_api apiKey net) (fallback_queries meal_name)

/-! ## Image resolver, generation strategy (`meal_hugging.py` lines 30-44) -/

/-- Behaviour of one `requests.post` call against the Hugging Face
inference endpoint: raise, or return a status code and the response body. -/
inductive ImgOutcome where
  | exn (msg : String)
  | resp (status : Nat) (content : String)
deriving DecidableEq

/-- Function `generate_meal_image`: the whole request sits inside `try`/`except`,
the handler returns `None`, so the function can never raise: a raised
exception and a non-200 status both give `.ok none`; a 200 response gives
the decoded image. -/
def generate_meal_image (net : String → ImgOutcome) (prompt : String) :
    Except String (Option String) :=
  match net prompt with
  | ImgOutcome.exn _ => Except.ok none
  | ImgOutcome.resp status content =>
      if status = 200 then Except.ok (some content) else Except.ok none

/-! ## Structured records (spec section 3) -/

structure MealEntry where
  meal_type : String
  description : String
deriving DecidableEq

structure DayPlan where
  heading : String
  meals : List MealEntry
deriving DecidableEq

structure GroceryItem where
  category : String
  item : String
  quantity : String
deriving DecidableEq

/-! ## Plan text parser (`ai_meal_pexels.py` lines 141-157) -/

/-- Does the text at this position satisfy the lookahead `(?=Day \d)`:
literal `Day`, one space, one digit. -/
def isDayStart (s : List Char) : Bool :=
  match s with
  | c1 :: c2 :: c3 :: c4 :: c5 :: _ =>
      c1 = 'D' && c2 = 'a' && c3 = 'y' && c4 = ' ' && c5.isDigit
  | _ => false

/-- Python `re.split(r"(?=Day \d)", text)`: cut immediately before every position
where the lookahead matches; the delimiter text stays with the segment that
follows, and a cut at position 0 produces a leading empty segment. -/
def splitDaysAux : List Char → List Char → List (List Char)
  | [], acc => [acc.reverse]
  | c :: rest, acc =>
      if isDayStart (c :: rest) then acc.reverse :: splitDaysAux rest [c]
      else splitDaysAux rest (c :: acc)

def splitDays (l : List Char) : List (List Char) :=
  splitDaysAux l []

/-- Tail of the meal-entry pattern `\*\*(.*?)\*\*:?\s*(.*)` after the closing
`**`: optional colon, greedy whitespace, then the greedy non-newline group
`(.*)` (which always succeeds, possibly empty).  Returns the second group
and the text after the match. -/
def matchBoldTail (t : List Char) : List Char × List Char :=
  let t1 := match t with
    | ':' :: r => r
    | _ => t
  let t2 := t1.dropWhile pyIsSpace
  let g2 := t2.takeWhile (fun c => c ≠ '\n')
  (g2, t2.drop g2.length)

/-- The lazy group `(.*?)` followed by the closing `\*\*` and the tail: the
group is the shortest non-newline run reaching a `**`; the rest of the
pattern always succeeds, so no backtracking past the first `**` occurs. -/
def matchBoldG1 : List Char → List Char → Option (List Char × List Char × List Char)
  | '*' :: '*' :: t2, acc =>
      let tail := matchBoldTail t2
      some (acc.reverse, tail.1, tail.2)
  | c :: t, acc => if c = '\n' then none else matchBoldG1 t (c :: acc)
  | [], _ => none

/-- Try the meal pattern at the current position (it must open with `**`). -/
def matchBold (s : List Char) : Option (List Char × List Char × List Char) :=
  match s with
  | '*' :: '*' :: t => matchBoldG1 t []
  | _ => none

/-- Python `re.findall(r"\*\*(.*?)\*\*:?\s*(.*)", content)`: scan left to right,
collect non-overlapping matches, resume after each match.  Every match
consumes at least four characters, so `fuel = length` suffices. -/
def findMealsAux : Nat → List Char → List (List Char × List Char)
  | 0, _ => []
  | _ + 1, [] => []
  | fuel + 1, c :: rest =>
      match matchBold (c :: rest) with
      | some (g1, g2, after) => (g1, g2) :: findMealsAux fuel after
      | none => findMealsAux fuel rest

def findMeals (content : List Char) : List (MealEntry) :=
  (findMealsAux content.length content).map
    (fun p => ⟨String.mk p.1, String.mk p.2⟩)

/-- The day loop of `ai_meal_pexels.py` (lines 145-157): split the stripped
plan at day boundaries, skip segments that strip to nothing, take the first
line (stripped) as the heading and run the meal `findall` on the joined
remaining lines. -/
def parse_plan (plan : String) : List DayPlan :=
  (splitDays (pyStrip plan.data)).filterMap (fun seg =>
    match pySplitLines (pyStrip seg) with
    | [] => none
    | h :: rest => some ⟨String.mk (pyStrip h), findMeals (List.intercalate ['\n'] rest)⟩)

/-- Source: `any(m in line.lower() for m in ["breakfast", "lunch", "dinner", "snack"])`. -/
def containsMealKeyword (line : List Char) : Bool :=
  ["breakfast".data, "lunch".data, "dinner".data, "snack".data].any
    (fun kw => (pyLower line).tails.any (fun t => kw.isPrefixOf t))

/-- The day loop of `meal_hugging.py` (lines 132-141): the split pattern
`(?=Day \d)\s*` behaves like the pure lookahead (the asserted text starts
with `D`, which is not whitespace, so `\s*` always matches empty); the
heading is the first line of the stripped segment, kept verbatim, and the
body keeps only the lines mentioning a meal keyword. -/
def parse_days_hugging (plan : String) : List (String × List String) :=
  (splitDays plan.data).filterMap (fun seg =>
    match pySplitLines (pyStrip seg) with
    | [] => none
    | h :: rest => some (String.mk h, (rest.filter containsMealKeyword).map String.mk))

/-! ## Day-token count and warning (`ai_meal_pexels.py` lines 141-143) -/

/-- Try the pattern `Day\s*\d` at the current position: literal `Day`,
greedy whitespace, one digit (no character is both whitespace and a digit,
so the greedy scan is deterministic).  Returns the matched text and the
rest. -/
def matchDayTok (s : List Char) : Option (List Char × List Char) :=
  match s with
  | 'D' :: 'a' :: 'y' :: t =>
      let ws := t.takeWhile pyIsSpace
      match t.drop ws.length with
      | d :: r =>
          if d.isDigit then some ('D' :: 'a' :: 'y' :: (ws ++ [d]), r) else none
      | [] => none
  | _ => none

/-- Python `re.findall(r"Day\s*\d", plan)`: left-to-right non-overlapping scan.
Every match consumes at least four characters, so `fuel = length` suffices. -/
def findDayTokensAux : Nat → List Char → List (List Char)
  | 0, _ => []
  | _ + 1, [] => []
  | fuel + 1, c :: rest =>
      match matchDayTok (c :: rest) with
      | some (tok, after) => tok :: findDayTokensAux fuel after
      | none => findDayTokensAux fuel rest

def findDayTokens (plan : String) : List String :=
  (findDayTokensAux plan.data.length plan.data).map String.mk

/-- Modelled from the spec sentence under check: "distinct day-number
tokens" — the `findall` matches with duplicates removed.  The source only
ever computes `len(days)` on the raw match list. -/
def distinct_day_tokens (plan : String) : List String :=
  (findDayTokens plan).dedup

/-- The generation flow around the parser (lines 141-157): the warning is
shown exactly when the `findall` match list has fewer than 7 entries, and
the day loop then runs on the very same text regardless. -/
def generation_flow (plan : String) : Bool × List DayPlan :=
  (decide ((findDayTokens plan).length < 7), parse_plan plan)

/-! ## Grocery text parser (`ai_meal_pexels.py` lines 188-209, identical in
`meal_text.py` lines 124-145) -/

/-- The dash class `[–-]` of the item pattern: en dash or hyphen. -/
def isDashChar (c : Char) : Bool := c = '-' || c = '–'

/-- The final greedy group `(.+)`: the longest non-newline prefix, at least
one character. -/
def dotPlusGreedy (t : List Char) : Option (List Char) :=
  let g := t.takeWhile (fun c => c ≠ '\n')
  if g.isEmpty then none else some g

/-- The tail `\s*(.+)` after the dash, with the regex engine's backtracking: the
greedy `\s*` prefers to consume, and gives characters back one at a time
when `(.+)` would otherwise be empty. -/
def matchAfterDash : List Char → Option (List Char)
  | [] => none
  | c :: rest =>
      if pyIsSpace c then (matchAfterDash rest) <|> (dotPlusGreedy (c :: rest))
      else dotPlusGreedy (c :: rest)

/-- The suffix `\s*[–-]\s*(.+)` from a given position.  No character is both
whitespace and a dash, so the first `\s*` deterministically skips the
whitespace run, whose end must be the dash. -/
def matchSep (t : List Char) : Option (List Char) :=
  match t.dropWhile pyIsSpace with
  | [] => none
  | c :: rest => if isDashChar c then matchAfterDash rest else none

/-- The lazy group `(.+?)` followed by the separator and tail: consume at
least one non-newline character, trying the separator after each one
(shortest group first). -/
def matchG1 : List Char → List Char → Option (List Char × List Char)
  | [], _ => none
  | c :: rest, acc =>
      if c = '\n' then none
      else
        match matchSep rest with
        | some g2 => some ((c :: acc).reverse, g2)
        | none => matchG1 rest (c :: acc)

/-- The leading `\s*` of `-\s*(.+?)\s*[–-]\s*(.+)` (after the literal
bullet), greedy with backtracking: prefer the longest whitespace run, fall
back to letting the lazy group start earlier. -/
def matchWsG1 : List Char → Option (List Char × List Char)
  | [] => none
  | c :: rest =>
      if pyIsSpace c then (matchWsG1 rest) <|> (matchG1 (c :: rest) [])
      else matchG1 (c :: rest) []

/-- Python `re.match(r"-\s*(.+?)\s*[–-]\s*(.+)", item)`: anchored at the start,
the first character must be the literal hyphen bullet.  Returns the two
groups on success. -/
def matchItemLine (s : List Char) : Option (List Char × List Char) :=
  match s with
  | c :: rest => if c = '-' then matchWsG1 rest else none
  | [] => none

/-- Per-item-line step of `parse_grocery_list`: on a regex match the two
groups are stripped into (item, quantity); otherwise the stripped line,
with bullet characters removed from the left, is the item and the quantity
is empty. -/
def processItem (item : List Char) : List Char × List Char :=
  match matchItemLine item with
  | some (g1, g2) => (pyStrip g1, pyStrip g2)
  | none => (lstripDashSpace (pyStrip item), [])

/-- Python `re.split(r'##\s*', text)`: cut at every `##`, also consuming the
greedy whitespace run that follows it.  Each step consumes at least one
character, so `fuel = length` suffices. -/
def splitHashesAux : Nat → List Char → List Char → List (List Char)
  | 0, _, acc => [acc.reverse]
  | _ + 1, [], acc => [acc.reverse]
  | fuel + 1, c :: rest, acc =>
      match c :: rest with
      | '#' :: '#' :: t => acc.reverse :: splitHashesAux fuel (t.dropWhile pyIsSpace) []
      | _ => splitHashesAux fuel rest (c :: acc)

def splitHashes (l : List Char) : List (List Char) :=
  splitHashesAux l.length l []

/-- Function `parse_grocery_list` (`ai_meal_pexels.py` lines 188-209 =
`meal_text.py` lines 124-145): split on `##` headers, skip sections that
strip to nothing, first line (stripped) is the category, every further
line becomes one grocery row via `processItem`. -/
def parse_grocery_list (text : String) : List GroceryItem :=
  ((splitHashes text.data).filterMap (fun sec =>
    match pySplitLines (pyStrip sec) with
    | [] => none
    | catLine :: items =>
        some (items.map (fun item =>
          let p := processItem item
          GroceryItem.mk (String.mk (pyStrip catLine)) (String.mk p.1) (String.mk p.2))))).flatten

/-! ## Helper lemmas: banker's rounding -/

theorem roundHalfEven_bounds (q : ℚ) :
    ⌊q⌋ ≤ roundHalfEven q ∧ roundHalfEven q ≤ ⌊q⌋ + 1 := by
  unfold roundHalfEven
  split_ifs <;> omega

theorem roundHalfEven_mono {p q : ℚ} (h : p ≤ q) :
    roundHalfEven p ≤ roundHalfEven q := by
  have hf : ⌊p⌋ ≤ ⌊q⌋ := Int.floor_le_floor h
  rcases eq_or_lt_of_le hf with heq | hlt
  · have hfr : Int.fract p ≤ Int.fract q := by
      unfold Int.fract
      rw [heq]
      linarith
    unfold roundHalfEven
    split_ifs <;> first | omega | linarith
  · have h1 := (roundHalfEven_bounds p).2
    have h2 := (roundHalfEven_bounds q).1
    omega

/-- C1 (amended): for every profile the BMR follows the Mifflin-St Jeor
formula with offset +5 for Male, -161 for Female and none for Other, and
the Male example (age 20, weight 50 kg, height 170 cm) evaluates to exactly
1467.5; `bmr` is a pure function of its arguments, hence deterministic. -/
theorem bmr_mifflin_formula (w h a : ℚ) :
    bmr ("Male") w h a = 10 * w + 6.25 * h - 5 * a + 5 ∧
    bmr ("Female") w h a = 10 * w + 6.25 * h - 5 * a - 161 ∧
    bmr ("Other") w h a = 10 * w + 6.25 * h - 5 * a ∧
    bmr ("Male") 50 170 20 = 1467.5 := by
  have hF : ("Female" : String) ≠ "Male" := by decide
  have hO1 : ("Other" : String) ≠ "Male" := by decide
  have hO2 : ("Other" : String) ≠ "Female" := by decide
  exact ⟨by norm_num [bmr], by norm_num [bmr, hF], by norm_num [bmr, hO1, hO2],
    by norm_num [bmr]⟩

/-- C1 (counterexample to the claim as stated): on the Male/20y/50kg/170cm
profile the code computes 1467.5, not the 1067.5 the claim asserts. -/
theorem bmr_male_example_ne_1067_5 :
    bmr ("Male") 50 170 20 ≠ 1067.5 := by
  norm_num [bmr]

/-- C2: for every activity level offered by the form, the TDEE is the BMR
times the table factor (Sedentary 1.2, Light 1.375, Moderate 1.55, Active
1.725, Extra_Active 1.9 where present), every factor lies in [1.2, 1.9],
the 4-level table of `meal_text.py` agrees with the 5-level one on its
keys, and the calorie goal is tdee * 0.7 for "Fat Loss" and tdee for every
other goal. -/
theorem tdee_activity_factor_and_calorie_goal (b t : ℚ) :
    (∀ l ∈ (["Sedentary", "Light", "Moderate", "Active", "Extra_Active"] : List String),
        ∃ f, activity_factors l = some f ∧ tdee b l = some (b * f) ∧
          1.2 ≤ f ∧ f ≤ 1.9) ∧
    activity_factors ("Sedentary") = some 1.2 ∧
    activity_factors ("Light") = some 1.375 ∧
    activity_factors ("Moderate") = some 1.55 ∧
    activity_factors ("Active") = some 1.725 ∧
    activity_factors ("Extra_Active") = some 1.9 ∧
    (∀ l ∈ (["Sedentary", "Light", "Moderate", "Active"] : List String),
        activity_factors_text l = activity_factors l) ∧
    calorie_goal t ("Fat Loss") = t * 0.7 ∧
    (∀ g : String, g ≠ "Fat Loss" → calorie_goal t g = t) := by
  refine ⟨?_, rfl, rfl, rfl, rfl, rfl, ?_, by norm_num [calorie_goal], ?_⟩
  · intro l hl
    fin_cases hl
    · exact ⟨1.2, rfl, rfl, by norm_num, by norm_num⟩
    · exact ⟨1.375, rfl, rfl, by norm_num, by norm_num⟩
    · exact ⟨1.55, rfl, rfl, by norm_num, by norm_num⟩
    · exact ⟨1.725, rfl, rfl, by norm_num, by norm_num⟩
    · exact ⟨1.9, rfl, rfl, by norm_num, by norm_num⟩
  · intro l hl
    fin_cases hl <;> rfl
  · intro g hg
    simp [calorie_goal, hg]

/-- C2 (witness): the Light level at bmr 2. -/
theorem tdee_activity_factor_witness :
    ∃ f, activity_factors ("Light") = some f ∧ tdee 2 ("Light") = some (2 * f) ∧
      (1.2 : ℚ) ≤ f ∧ f ≤ 1.9 :=
  (tdee_activity_factor_and_calorie_goal 2 10).1 ("Light") (by decide)

/-- C8: with the multiplier fixed at 1.8, the protein target
`round(lbm * 1.8, 1)` is monotonically non-decreasing in lean body mass. -/
theorem protein_target_monotone (lbm1 lbm2 : ℚ) (h : lbm1 ≤ lbm2) :
    protein_target lbm1 ≤ protein_target lbm2 := by
  unfold protein_target pyRound1
  have h18 : lbm1 * 1.8 * 10 ≤ lbm2 * 1.8 * 10 := by linarith
  have hr := roundHalfEven_mono h18
  have hc : ((roundHalfEven (lbm1 * 1.8 * 10) : ℚ)) ≤
      ((roundHalfEven (lbm2 * 1.8 * 10) : ℚ)) := by exact_mod_cast hr
  linarith

/-- C8 (witness): concrete lean body masses 40 and 45 kg. -/
theorem protein_target_monotone_witness :
    (40 : ℚ) ≤ 45 ∧ protein_target 40 ≤ protein_target 45 :=
  ⟨by norm_num, protein_target_monotone 40 45 (by norm_num)⟩

/-! ## Image resolver theorems -/

theorem searchLoop_eq_trace (c : String → Except String (Option String))
    (qs : List String) : searchLoop c qs = (searchTrace c qs).2 := by
  induction qs with
  | nil => rfl
  | cons q qs ih =>
      cases hc : c q with
      | error e => simp [searchLoop, searchTrace, hc]
      | ok o => cases o <;> simp [searchLoop, searchTrace, hc, ih]

/-- C5: the search strategy performs at most 3 `call_pexels_api` calls, in
the order [description, simplified description, "healthy food"] (the
queries actually tried are a prefix of that chain), returns the first
non-empty result — in particular, if the first two calls come back empty
the returned value is exactly the third call's result — and returns
no-result when all three come back empty. -/
theorem search_pexels_fallback_chain (key : Option String)
    (net : String → HttpOutcome) (meal : String) :
    (searchTrace (call_pexels_api key net) (fallback_queries meal)).1.length ≤ 3 ∧
    (searchTrace (call_pexels_api key net) (fallback_queries meal)).1 =
      (fallback_queries meal).take
        (searchTrace (call_pexels_api key net) (fallback_queries meal)).1.length ∧
    search_pexels key net meal =
      (searchTrace (call_pexels_api key net) (fallback_queries meal)).2 ∧
    (∀ r, call_pexels_api key net meal = Except.ok (some r) →
        search_pexels key net meal = Except.ok (some r)) ∧
    (call_pexels_api key net meal = Except.ok none →
      call_pexels_api key net (simplify meal) = Except.ok none →
      search_pexels key net meal = call_pexels_api key net ("healthy food")) ∧
    (call_pexels_api key net meal = Except.ok none →
      call_pexels_api key net (simplify meal) = Except.ok none →
      call_pexels_api key net ("healthy food") = Except.ok none →
      search_pexels key net meal = Except.ok none) := by
  refine ⟨?_, ?_, searchLoop_eq_trace _ _, ?_, ?_, ?_⟩
  · rcases h1 : call_pexels_api key net meal with e1 | o1
    · simp [fallback_queries, searchTrace, h1]
    · rcases o1 with _ | r1
      · rcases h2 : call_pexels_api key net (simplify meal) with e2 | o2
        · simp [fallback_queries, searchTrace, h1, h2]
        · rcases o2 with _ | r2
          · rcases h3 : call_pexels_api key net ("healthy food") with e3 | o3
            · simp [fallback_queries, searchTrace, h1, h2, h3]
            · rcases o3 with _ | r3 <;> simp [fallback_queries, searchTrace, h1, h2, h3]
          · simp [fallback_queries, searchTrace, h1, h2]
      · simp [fallback_queries, searchTrace, h1]
  · rcases h1 : call_pexels_api key net meal with e1 | o1
    · simp [fallback_queries, searchTrace, h1]
    · rcases o1 with _ | r1
      · rcases h2 : call_pexels_api key net (simplify meal) with e2 | o2
        · simp [fallback_queries, searchTrace, h1, h2]
        · rcases o2 with _ | r2
          · rcases h3 : call_pexels_api key net ("healthy food") with e3 | o3
            · simp [fallback_queries, searchTrace, h1, h2, h3]
            · rcases o3 with _ | r3 <;> simp [fallback_queries, searchTrace, h1, h2, h3]
          · simp [fallback_queries, searchTrace, h1, h2]
      · simp [fallback_queries, searchTrace, h1]
  · intro r hr
    simp [search_pexels, searchLoop, fallback_queries, hr]
  · intro hm hs
    simp only [search_pexels, fallback_queries, searchLoop, hm, hs]
    rcases h3 : call_pexels_api key net ("healthy food") with e3 | o3
    · simp [searchLoop, h3]
    · rcases o3 with _ | r3 <;> simp [searchLoop, h3]
  · intro hm hs hh
    simp [search_pexels, searchLoop, fallback_queries, hm, hs, hh]

/-- A network behaviour where only the generic fallback query succeeds. -/
def healthyOnlyNet : String → HttpOutcome := fun q =>
  if q = "healthy food" then HttpOutcome.resp 200 ["url3"] else HttpOutcome.resp 200 []

/-- C5 (witness): with a key present and only the third query succeeding,
at most 3 calls are traced and the result is the third call's result. -/
theorem search_pexels_fallback_chain_witness :
    (searchTrace (call_pexels_api (some ("k")) healthyOnlyNet)
      (fallback_queries ("oats"))).1.length ≤ 3 ∧
    search_pexels (some ("k")) healthyOnlyNet ("oats") =
      call_pexels_api (some ("k")) healthyOnlyNet ("healthy food") :=
  ⟨(search_pexels_fallback_chain (some ("k")) healthyOnlyNet ("oats")).1,
   (search_pexels_fallback_chain (some ("k")) healthyOnlyNet ("oats")).2.2.2.2.1 rfl rfl⟩

/-- C6 (amended): the generation strategy (`generate_meal_image`) always
returns an `ok` value — its `try`/`except` converts any thrown exception or
non-200 response into a soft no-result; the search strategy returns a soft
no-result on a missing key or a non-200 response, but a thrown network
exception propagates out of `call_pexels_api` and `search_pexels` to the
caller (it is only caught by the generation flow's top-level handler). -/
theorem image_resolvers_error_handling :
    (∀ (net : String → ImgOutcome) (prompt : String),
        ∃ v, generate_meal_image net prompt = Except.ok v) ∧
    (∀ (net : String → ImgOutcome) (prompt e : String),
        net prompt = ImgOutcome.exn e →
        generate_meal_image net prompt = Except.ok none) ∧
    (∀ (net : String → ImgOutcome) (prompt : String) (s : Nat)
        (content : String), net prompt = ImgOutcome.resp s content → s ≠ 200 →
        generate_meal_image net prompt = Except.ok none) ∧
    (∀ (net : String → HttpOutcome) (query : String),
        call_pexels_api none net query = Except.ok none) ∧
    (∀ (key : String) (net : String → HttpOutcome) (query : String) (s : Nat)
        (ph : List String), net query = HttpOutcome.resp s ph → s ≠ 200 →
        call_pexels_api (some key) net query = Except.ok none) ∧
    (∀ (key : String) (net : String → HttpOutcome) (meal e : String),
        net meal = HttpOutcome.exn e →
        search_pexels (some key) net meal = Except.error e) := by
  refine ⟨?_, ?_, ?_, fun net query => rfl, ?_, ?_⟩
  · intro net prompt
    unfold generate_meal_image
    cases h : net prompt with
    | exn m => exact ⟨none, rfl⟩
    | resp s content =>
        by_cases hs : s = 200
        · exact ⟨some content, by simp [hs]⟩
        · exact ⟨none, by simp [hs]⟩
  · intro net prompt e h
    simp [generate_meal_image, h]
  · intro net prompt s content h hs
    simp [generate_meal_image, h, hs]
  · intro key net query s ph hnet hs
    simp [call_pexels_api, hnet, hs]
  · intro key net meal e hnet
    simp [search_pexels, searchLoop, fallback_queries, call_pexels_api, hnet]

/-- A network behaviour that always raises. -/
def constExnNet : String → HttpOutcome := fun _ => HttpOutcome.exn ("timeout")

/-- A network behaviour that always answers with status 500. -/
def constBadNet : String → HttpOutcome := fun _ => HttpOutcome.resp 500 []

/-- A generation endpoint behaviour that always raises. -/
def constImgExnNet : String → ImgOutcome := fun _ => ImgOutcome.exn ("boom")

/-- A generation endpoint behaviour that always answers with status 500. -/
def constImgBadNet : String → ImgOutcome := fun _ => ImgOutcome.resp 500 ("")

/-- C6 (witness): concrete behaviours for each conjunct. -/
theorem image_resolvers_error_handling_witness :
    (∃ v, generate_meal_image constImgExnNet ("oats") = Except.ok v) ∧
    generate_meal_image constImgExnNet ("oats") = Except.ok none ∧
    generate_meal_image constImgBadNet ("oats") = Except.ok none ∧
    call_pexels_api none constBadNet ("oats") = Except.ok none ∧
    call_pexels_api (some ("k")) constBadNet ("oats") = Except.ok none ∧
    search_pexels (some ("k")) constExnNet ("oats") = Except.error ("timeout") :=
  ⟨image_resolvers_error_handling.1 constImgExnNet ("oats"),
   image_resolvers_error_handling.2.1 constImgExnNet ("oats") ("boom") rfl,
   image_resolvers_error_handling.2.2.1 constImgBadNet ("oats") 500 ("") rfl (by decide),
   image_resolvers_error_handling.2.2.2.1 constBadNet ("oats"),
   image_resolvers_error_handling.2.2.2.2.1 ("k") constBadNet ("oats") 500 [] rfl (by decide),
   image_resolvers_error_handling.2.2.2.2.2 ("k") constExnNet ("oats") ("timeout") rfl⟩

/-- C6 (counterexample to the claim as stated): with an API key configured
and the network call raising, the search strategy does not return a soft
no-result — the exception propagates out of the resolver as an error. -/
theorem search_pexels_propagates_exception :
    search_pexels (some ("k")) constExnNet ("oats") = Except.error ("timeout") ∧
    search_pexels (some ("k")) constExnNet ("oats") ≠ Except.ok none := by
  refine ⟨rfl, ?_⟩
  intro h
  simp [search_pexels, searchLoop, fallback_queries, call_pexels_api, constExnNet] at h

/-! ## Helper lemmas: dropWhile, strip, splitlines -/

theorem dropWhile_cons_structure {α : Type} {p : α → Bool} :
    ∀ (l : List α) (c : α) (t : List α),
      l.dropWhile p = c :: t → p c = false ∧ c ∈ l := by
  intro l
  induction l with
  | nil => intro c t h; simp [List.dropWhile] at h
  | cons a l ih =>
      intro c t h
      by_cases hp : p a
      · simp only [List.dropWhile, hp] at h
        rcases ih c t h with ⟨h1, h2⟩
        exact ⟨h1, List.mem_cons_of_mem a h2⟩
      · have hp2 : p a = false := by simpa using hp
        rw [List.dropWhile_cons_of_neg (by simp [hp2])] at h
        injection h with e1 e2
        subst e1
        exact ⟨hp2, List.mem_cons_self a l⟩

theorem dropWhile_ne_nil_of_exists {α : Type} {p : α → Bool} :
    ∀ (l : List α), (∃ c ∈ l, p c = false) → l.dropWhile p ≠ [] := by
  intro l
  induction l with
  | nil => rintro ⟨c, hc, _⟩; simp at hc
  | cons a l ih =>
      rintro ⟨c, hc, hpc⟩
      by_cases hp : p a
      · simp only [List.dropWhile, hp]
        refine ih ⟨c, ?_, hpc⟩
        rcases List.mem_cons.mp hc with h | h
        · exact absurd (h ▸ hp) (by rw [hpc]; simp)
        · exact h
      · simp [List.dropWhile, hp]

theorem dropWhile_idem {α : Type} {p : α → Bool} (l : List α) :
    (l.dropWhile p).dropWhile p = l.dropWhile p := by
  cases h : l.dropWhile p with
  | nil => rfl
  | cons c t =>
      have := (dropWhile_cons_structure l c t h).1
      simp [List.dropWhile, this]

theorem dropWhile_append_singleton {α : Type} {p : α → Bool} :
    ∀ (xs : List α) (c : α), p c = false →
      ∃ ys, (xs ++ [c]).dropWhile p = ys ++ [c] := by
  intro xs
  induction xs with
  | nil => intro c hc; exact ⟨[], by simp [List.dropWhile, hc]⟩
  | cons a xs ih =>
      intro c hc
      by_cases hp : p a
      · rcases ih c hc with ⟨ys, hys⟩
        exact ⟨ys, by simp [List.dropWhile, hp, hys]⟩
      · exact ⟨a :: xs, by simp [List.dropWhile, hp]⟩

theorem dropTrailingWs_cons {c : Char} (t : List Char)
    (hc : pyIsSpace c = false) : ∃ t2, dropTrailingWs (c :: t) = c :: t2 := by
  unfold dropTrailingWs
  rcases dropWhile_append_singleton t.reverse c hc with ⟨ys, hys⟩
  rw [List.reverse_cons, hys]
  exact ⟨ys.reverse, by simp⟩

theorem pyStrip_shape (l : List Char) :
    pyStrip l = [] ∨ ∃ c t, pyStrip l = c :: t ∧ pyIsSpace c = false := by
  unfold pyStrip
  cases h : l.dropWhile pyIsSpace with
  | nil => left; rfl
  | cons c t =>
      right
      have hc := (dropWhile_cons_structure l c t h).1
      rcases dropTrailingWs_cons t hc with ⟨t2, ht2⟩
      exact ⟨c, t2, ht2, hc⟩

theorem pyStrip_cons_of_head {c : Char} (t : List Char)
    (hc : pyIsSpace c = false) : ∃ t2, pyStrip (c :: t) = c :: t2 := by
  unfold pyStrip
  rw [List.dropWhile_cons_of_neg (by simp [hc])]
  exact dropTrailingWs_cons t hc

theorem pyStrip_ne_nil_of_exists (l : List Char)
    (h : ∃ c ∈ l, pyIsSpace c = false) : pyStrip l ≠ [] := by
  unfold pyStrip
  cases hd : l.dropWhile pyIsSpace with
  | nil => exact absurd hd (dropWhile_ne_nil_of_exists l h)
  | cons c t =>
      have hc := (dropWhile_cons_structure l c t hd).1
      rcases dropTrailingWs_cons t hc with ⟨t2, ht2⟩
      simp [ht2]

theorem pyStrip_dropWhile (l : List Char) :
    pyStrip (l.dropWhile pyIsSpace) = pyStrip l := by
  unfold pyStrip
  rw [dropWhile_idem]

theorem isLineBreak_space {c : Char} (h : isLineBreak c = true) :
    pyIsSpace c = true := by
  simp only [isLineBreak, Bool.or_eq_true, decide_eq_true_eq] at h
  simp only [pyIsSpace, Bool.or_eq_true, decide_eq_true_eq]
  tauto

theorem string_mk_cons_ne_empty (c : Char) (t : List Char) :
    String.mk (c :: t) ≠ "" := by
  intro e
  have h2 := congrArg String.data e
  simp at h2

theorem pySplitLinesAux_head :
    ∀ (fuel : Nat) (t acc : List Char), acc ≠ [] →
      ∃ h rest, pySplitLinesAux fuel t acc = (acc.reverse ++ h) :: rest := by
  intro fuel
  induction fuel with
  | zero =>
      intro t acc ha
      cases t with
      | nil =>
          refine ⟨[], [], ?_⟩
          simp [pySplitLinesAux, List.isEmpty_iff, ha]
      | cons c rest => exact ⟨[], [], by simp [pySplitLinesAux]⟩
  | succ n ih =>
      intro t acc ha
      cases t with
      | nil =>
          refine ⟨[], [], ?_⟩
          simp [pySplitLinesAux, List.isEmpty_iff, ha]
      | cons c rest =>
          by_cases hc : c = '\r'
          · refine ⟨[], pySplitLinesAux n (dropLeadingLf rest) [], ?_⟩
            simp [pySplitLinesAux, hc]
          · by_cases hb : isLineBreak c
            · refine ⟨[], pySplitLinesAux n rest [], ?_⟩
              simp [pySplitLinesAux, hc, hb]
            · rcases ih rest (c :: acc) (by simp) with ⟨h, r2, hr⟩
              refine ⟨c :: h, r2, ?_⟩
              rw [pySplitLinesAux]
              simp only [hc, hb, if_false]
              rw [hr]
              simp

/-- The first line of a string whose first character is not whitespace
starts with that character. -/
theorem pySplitLines_head {c : Char} (t : List Char)
    (hc : pyIsSpace c = false) :
    ∃ h rest, pySplitLines (c :: t) = (c :: h) :: rest := by
  have hcr : c ≠ '\r' := by
    intro e
    rw [e] at hc
    exact absurd hc (by decide)
  have hlb : isLineBreak c = false := by
    cases hx : isLineBreak c
    · rfl
    · exact absurd (isLineBreak_space hx) (by simp [hc])
  unfold pySplitLines
  simp only [List.length_cons]
  rw [pySplitLinesAux]
  simp only [hcr, hlb, if_false]
  rcases pySplitLinesAux_head t.length t [c] (by simp) with ⟨h, rest, hr⟩
  exact ⟨h, rest, by rw [hr]; simp⟩

theorem isDayStart_cons_ne {c : Char} (rest : List Char) (h : c ≠ 'D') :
    isDayStart (c :: rest) = false := by
  unfold isDayStart
  rcases rest with _ | ⟨c2, rest⟩
  · rfl
  rcases rest with _ | ⟨c3, rest⟩
  · rfl
  rcases rest with _ | ⟨c4, rest⟩
  · rfl
  rcases rest with _ | ⟨c5, rest⟩
  · rfl
  · simp [h]

theorem isDayStart_digit {d : Char} (rest : List Char) (h : d.isDigit = true) :
    isDayStart (d :: rest) = false := by
  apply isDayStart_cons_ne
  intro e
  rw [e] at h
  exact absurd h (by decide)

theorem splitDaysAux_structure :
    ∀ (n : Nat) (s acc : List Char), s.length ≤ n →
      ∃ p rest, splitDaysAux s acc = (acc.reverse ++ p) :: rest ∧
        ∀ seg ∈ rest, isDayStart seg = true := by
  intro n
  induction n with
  | zero =>
      intro s acc ht
      have : s = [] := List.eq_nil_of_length_eq_zero (Nat.le_zero.mp ht)
      subst this
      exact ⟨[], [], by simp [splitDaysAux], by simp⟩
  | succ n ih =>
      intro s acc ht
      cases s with
      | nil => exact ⟨[], [], by simp [splitDaysAux], by simp⟩
      | cons c r =>
          by_cases hd : isDayStart (c :: r) = true
          · rcases r with _ | ⟨c2, r⟩
            · simp [isDayStart] at hd
            rcases r with _ | ⟨c3, r⟩
            · simp [isDayStart] at hd
            rcases r with _ | ⟨c4, r⟩
            · simp [isDayStart] at hd
            rcases r with _ | ⟨c5, r5⟩
            · simp [isDayStart] at hd
            simp only [isDayStart, Bool.and_eq_true, decide_eq_true_eq] at hd
            obtain ⟨⟨⟨⟨e1, e2⟩, e3⟩, e4⟩, hdig⟩ := hd
            subst e1; subst e2; subst e3; subst e4
            have h1 : isDayStart ('a' :: 'y' :: ' ' :: c5 :: r5) = false :=
              isDayStart_cons_ne _ (by decide)
            have h2 : isDayStart ('y' :: ' ' :: c5 :: r5) = false :=
              isDayStart_cons_ne _ (by decide)
            have h3 : isDayStart (' ' :: c5 :: r5) = false :=
              isDayStart_cons_ne _ (by decide)
            have h4 : isDayStart (c5 :: r5) = false := isDayStart_digit _ hdig
            have hlen : r5.length ≤ n := by
              simp only [List.length_cons] at ht
              omega
            rcases ih r5 (c5 :: ' ' :: 'y' :: 'a' :: 'D' :: []) hlen with
              ⟨p1, rest1, heq1, hgood1⟩
            have hday : isDayStart ('D' :: 'a' :: 'y' :: ' ' :: c5 :: r5) = true := by
              simp [isDayStart, hdig]
            have hchain :
                splitDaysAux ('D' :: 'a' :: 'y' :: ' ' :: c5 :: r5) acc =
                  acc.reverse :: (('D' :: 'a' :: 'y' :: ' ' :: c5 :: p1) :: rest1) := by
              rw [splitDaysAux]
              rw [if_pos hday]
              rw [splitDaysAux]
              rw [if_neg (by simp [h1])]
              rw [splitDaysAux]
              rw [if_neg (by simp [h2])]
              rw [splitDaysAux]
              rw [if_neg (by simp [h3])]
              rw [splitDaysAux]
              rw [if_neg (by simp [h4])]
              rw [heq1]
              rfl
            refine ⟨[], ('D' :: 'a' :: 'y' :: ' ' :: c5 :: p1) :: rest1, ?_, ?_⟩
            · rw [hchain]; simp
            · intro seg hseg
              rcases List.mem_cons.mp hseg with h | h
              · subst h; simp [isDayStart, hdig]
              · exact hgood1 seg h
          · have hd2 : isDayStart (c :: r) = false := by simpa using hd
            have hlen : r.length ≤ n := by
              simp only [List.length_cons] at ht
              omega
            rcases ih r (c :: acc) hlen with ⟨p, rest, heq, hgood⟩
            refine ⟨c :: p, rest, ?_, hgood⟩
            rw [splitDaysAux]
            rw [if_neg (by simp [hd2])]
            rw [heq]
            simp

/-- C10: every DayPlan record produced by the plan text parser (in either
variant) has a non-empty heading: segments that are empty or
whitespace-only — including the leading empty segment of the lookahead
split — are skipped and yield no record. -/
theorem parse_plan_headings_nonempty :
    (∀ (s : String) (dp : DayPlan), dp ∈ parse_plan s → dp.heading ≠ "") ∧
    (∀ (s : String) (rec : String × List String),
        rec ∈ parse_days_hugging s → rec.1 ≠ "") := by
  constructor
  · intro s dp hmem
    unfold parse_plan at hmem
    rcases List.mem_filterMap.mp hmem with ⟨seg, hseg, hf⟩
    rcases pyStrip_shape seg with h0 | ⟨c, t, hct, hc⟩
    · rw [h0] at hf
      simp [pySplitLines, pySplitLinesAux] at hf
    · rw [hct] at hf
      rcases pySplitLines_head t hc with ⟨h, rest, hr⟩
      rw [hr] at hf
      simp only [Option.some.injEq] at hf
      subst hf
      rcases pyStrip_cons_of_head h hc with ⟨t2, ht2⟩
      simp only [ht2]
      exact string_mk_cons_ne_empty c t2
  · intro s rec hmem
    unfold parse_days_hugging at hmem
    rcases List.mem_filterMap.mp hmem with ⟨seg, hseg, hf⟩
    rcases pyStrip_shape seg with h0 | ⟨c, t, hct, hc⟩
    · rw [h0] at hf
      simp [pySplitLines, pySplitLinesAux] at hf
    · rw [hct] at hf
      rcases pySplitLines_head t hc with ⟨h, rest, hr⟩
      rw [hr] at hf
      simp only [Option.some.injEq] at hf
      subst hf
      exact string_mk_cons_ne_empty c h

/-- C10 (witness): the record parsed from a one-day plan. -/
theorem parse_plan_headings_nonempty_witness :
    (DayPlan.mk ("Day 1") [MealEntry.mk ("Breakfast") ("Oats")]).heading ≠ "" :=
  parse_plan_headings_nonempty.1 ("Day 1\n**Breakfast**: Oats")
    (DayPlan.mk ("Day 1") [MealEntry.mk ("Breakfast") ("Oats")]) (by decide)

/-- C3: the plan parser splits with lookahead semantics on the pattern
`Day ` + digit — every segment after the (possibly empty) leading one
begins with its own day heading — and on the two-day example input it
produces exactly the two expected DayPlan records with their MealEntry
records in order. -/
theorem parse_plan_lookahead_example (s : List Char) :
    (∀ seg ∈ (splitDays s).tail, isDayStart seg = true) ∧
    parse_plan ("Day 1\n**Breakfast**: Oats\n**Lunch**: Salad\nDay 2\n**Breakfast**: Eggs") =
      [DayPlan.mk ("Day 1") [MealEntry.mk ("Breakfast") ("Oats"), MealEntry.mk ("Lunch") ("Salad")],
       DayPlan.mk ("Day 2") [MealEntry.mk ("Breakfast") ("Eggs")]] := by
  constructor
  · intro seg hseg
    rcases splitDaysAux_structure s.length s [] (Nat.le_refl _) with ⟨p, rest, heq, hgood⟩
    unfold splitDays at hseg
    rw [heq] at hseg
    simp only [List.tail_cons] at hseg
    exact hgood seg hseg
  · decide

/-- C3 (witness): the second segment of the example's lookahead split
starts with a day heading. -/
theorem parse_plan_lookahead_example_witness :
    isDayStart ("Day 2\n**Breakfast**: Eggs".data) = true :=
  (parse_plan_lookahead_example
      ("Day 1\n**Breakfast**: Oats\n**Lunch**: Salad\nDay 2\n**Breakfast**: Eggs".data)).1
    ("Day 2\n**Breakfast**: Eggs".data) (by decide)

/-- C4: on the two-category example the grocery parser splits at the
double-hash headers, takes each section's first line as the category,
splits the dashed item line into name and quantity, and emits the bare
item line with an empty quantity — producing exactly the two expected rows
in order. -/
theorem parse_grocery_list_example :
    parse_grocery_list ("## Vegetables\n- Carrot – 200g\n## Fruits\n- Apple") =
      [GroceryItem.mk ("Vegetables") ("Carrot") ("200g"),
       GroceryItem.mk ("Fruits") ("Apple") ("")] := by
  decide

/-- C7 (amended): the generation flow emits its non-fatal warning exactly
when the day-token `findall` returns fewer than 7 matches counted with
multiplicity (not 7 distinct tokens), and the very same text is parsed
into DayPlan records whether or not the warning fired. -/
theorem generation_flow_warning (plan : String) :
    ((generation_flow plan).1 = true ↔ (findDayTokens plan).length < 7) ∧
    (generation_flow plan).2 = parse_plan plan := by
  constructor
  · simp [generation_flow]
  · rfl

/-- C7 (witness): on the empty plan the match list is empty, so the
warning fires. -/
theorem generation_flow_warning_witness :
    (generation_flow ("")).1 = true :=
  (generation_flow_warning ("")).1.mpr (by decide)

/-- C7 (counterexample to the claim as stated): a text containing seven
copies of the single token "Day 1" has only one distinct day-number token,
yet the code counts occurrences and does not warn. -/
theorem generation_flow_warning_counterexample :
    (generation_flow ("Day 1 Day 1 Day 1 Day 1 Day 1 Day 1 Day 1")).1 = false ∧
    (distinct_day_tokens ("Day 1 Day 1 Day 1 Day 1 Day 1 Day 1 Day 1")).length = 1 ∧
    (distinct_day_tokens ("Day 1 Day 1 Day 1 Day 1 Day 1 Day 1 Day 1")).length < 7 := by
  refine ⟨by decide, by decide, by decide⟩

/-! ## Helper lemmas: the grocery item regex -/

theorem takeWhile_all {α : Type} {p : α → Bool} :
    ∀ (l : List α), (∀ c ∈ l, p c = true) → l.takeWhile p = l := by
  intro l
  induction l with
  | nil => intro _; rfl
  | cons a l ih =>
      intro h
      rw [List.takeWhile_cons_of_pos (h a (List.mem_cons_self a l))]
      rw [ih (fun c hc => h c (List.mem_cons_of_mem a hc))]

theorem dropWhile_all_append {α : Type} {p : α → Bool} :
    ∀ (w r : List α), (∀ c ∈ w, p c = true) →
      (w ++ r).dropWhile p = r.dropWhile p := by
  intro w
  induction w with
  | nil => intro r _; rfl
  | cons a w ih =>
      intro r h
      rw [List.cons_append,
        List.dropWhile_cons_of_pos (h a (List.mem_cons_self a w))]
      exact ih r (fun c hc => h c (List.mem_cons_of_mem a hc))

theorem dash_not_space {d : Char} (h : isDashChar d = true) :
    pyIsSpace d = false := by
  simp only [isDashChar, Bool.or_eq_true, decide_eq_true_eq] at h
  rcases h with h | h <;> subst h <;> rfl

theorem dash_not_newline {d : Char} (h : isDashChar d = true) : d ≠ '\n' := by
  simp only [isDashChar, Bool.or_eq_true, decide_eq_true_eq] at h
  rcases h with h | h <;> subst h <;> decide

theorem dotPlusGreedy_eq (l : List Char) (h0 : l ≠ []) (h : '\n' ∉ l) :
    dotPlusGreedy l = some l := by
  unfold dotPlusGreedy
  have ht : l.takeWhile (fun c => c ≠ '\n') = l := by
    apply takeWhile_all
    intro c hc
    simp only [decide_eq_true_eq]
    intro e
    exact h (e ▸ hc)
  rw [ht]
  simp [List.isEmpty_iff, h0]

theorem matchAfterDash_complete :
    ∀ (q : List Char), '\n' ∉ q → (∃ c ∈ q, pyIsSpace c = false) →
      matchAfterDash q = some (q.dropWhile pyIsSpace) := by
  intro q
  induction q with
  | nil => rintro _ ⟨c, hc, _⟩; simp at hc
  | cons c rest ih =>
      intro hn hex
      by_cases hw : pyIsSpace c
      · have hex2 : ∃ x ∈ rest, pyIsSpace x = false := by
          rcases hex with ⟨x, hx, hxw⟩
          rcases List.mem_cons.mp hx with h | h
          · exact absurd (h ▸ hxw) (by simp [hw, h])
          · exact ⟨x, h, hxw⟩
        have hn2 : '\n' ∉ rest := fun h => hn (List.mem_cons_of_mem c h)
        rw [show matchAfterDash (c :: rest) =
            ((matchAfterDash rest) <|> (dotPlusGreedy (c :: rest))) from by
          simp [matchAfterDash, hw]]
        rw [ih hn2 hex2]
        rw [List.dropWhile_cons_of_pos (by simp [hw])]
        rfl
      · rw [show matchAfterDash (c :: rest) = dotPlusGreedy (c :: rest) from by
          simp [matchAfterDash, hw]]
        rw [dotPlusGreedy_eq (c :: rest) (by simp) hn]
        rw [List.dropWhile_cons_of_neg (by simp [hw])]

theorem matchSep_ws_dash (w : List Char) (d : Char) (q : List Char)
    (hw : ∀ c ∈ w, pyIsSpace c = true) (hd : isDashChar d = true) :
    matchSep (w ++ d :: q) = matchAfterDash q := by
  unfold matchSep
  rw [dropWhile_all_append w (d :: q) hw]
  rw [List.dropWhile_cons_of_neg (by simp [dash_not_space hd])]
  simp [hd]

theorem dropWhile_append_of_exists {α : Type} {p : α → Bool} :
    ∀ (l r : List α), (∃ c ∈ l, p c = false) →
      (l ++ r).dropWhile p = l.dropWhile p ++ r ∧ l.dropWhile p ≠ [] := by
  intro l
  induction l with
  | nil => rintro r ⟨c, hc, _⟩; simp at hc
  | cons a l ih =>
      rintro r ⟨c, hc, hpc⟩
      by_cases hp : p a
      · have hcl : c ∈ l := by
          rcases List.mem_cons.mp hc with h | h
          · exact absurd (h ▸ hp) (by rw [hpc]; simp)
          · exact h
        rcases ih r ⟨c, hcl, hpc⟩ with ⟨h1, h2⟩
        constructor
        · rw [List.cons_append, List.dropWhile_cons_of_pos (by simp [hp]),
            List.dropWhile_cons_of_pos (by simp [hp])]
          exact h1
        · rw [List.dropWhile_cons_of_pos (by simp [hp])]
          exact h2
      · constructor
        · rw [List.cons_append, List.dropWhile_cons_of_neg (by simp [hp]),
            List.dropWhile_cons_of_neg (by simp [hp])]
          simp
        · rw [List.dropWhile_cons_of_neg (by simp [hp])]
          simp

theorem matchSep_none (m r : List Char)
    (hex : ∃ c ∈ m, pyIsSpace c = false)
    (hnd : ∀ c ∈ m, isDashChar c = false) :
    matchSep (m ++ r) = none := by
  unfold matchSep
  rcases dropWhile_append_of_exists m r hex with ⟨happ, hne⟩
  rw [happ]
  cases hm : m.dropWhile pyIsSpace with
  | nil => exact absurd hm hne
  | cons c0 t0 =>
      have hc0 := (dropWhile_cons_structure m c0 t0 hm).2
      simp [hnd c0 hc0]

theorem matchG1_main :
    ∀ (m2 : List Char) (lastc d : Char) (q acc : List Char),
      (∀ c ∈ m2 ++ [lastc], isDashChar c = false ∧ c ≠ '\n') →
      pyIsSpace lastc = false →
      isDashChar d = true →
      '\n' ∉ q → (∃ c ∈ q, pyIsSpace c = false) →
      matchG1 ((m2 ++ [lastc]) ++ d :: q) acc =
        some (acc.reverse ++ m2 ++ [lastc], q.dropWhile pyIsSpace) := by
  intro m2
  induction m2 with
  | nil =>
      intro lastc d q acc hchars hlast hd hq1 hq2
      have hln : lastc ≠ '\n' := (hchars lastc (by simp)).2
      simp only [List.nil_append, List.cons_append]
      rw [matchG1]
      rw [if_neg hln]
      rw [show matchSep (d :: q) = matchAfterDash q from
        matchSep_ws_dash [] d q (by simp) hd]
      rw [matchAfterDash_complete q hq1 hq2]
      simp
  | cons c m2 ih =>
      intro lastc d q acc hchars hlast hd hq1 hq2
      have hcn : c ≠ '\n' := (hchars c (by simp)).2
      have hsep : matchSep ((m2 ++ [lastc]) ++ d :: q) = none := by
        apply matchSep_none (m2 ++ [lastc]) (d :: q)
        · exact ⟨lastc, by simp, hlast⟩
        · intro x hx
          exact (hchars x (List.mem_cons_of_mem c hx)).1
      have hstep : ((c :: m2) ++ [lastc]) ++ d :: q =
          c :: ((m2 ++ [lastc]) ++ d :: q) := by simp
      rw [hstep]
      rw [matchG1]
      rw [if_neg hcn]
      rw [hsep]
      rw [ih lastc d q (c :: acc)
        (fun x hx => hchars x (List.mem_cons_of_mem c hx)) hlast hd hq1 hq2]
      simp

theorem matchItemLine_cons (x : List Char) :
    matchItemLine ('-' :: x) = matchWsG1 x := by
  simp [matchItemLine]

theorem matchWsG1_main :
    ∀ (m : List Char) (lastc d : Char) (q : List Char),
      (∀ c ∈ m ++ [lastc], isDashChar c = false ∧ c ≠ '\n') →
      pyIsSpace lastc = false →
      isDashChar d = true →
      '\n' ∉ q → (∃ c ∈ q, pyIsSpace c = false) →
      matchWsG1 ((m ++ [lastc]) ++ d :: q) =
        some ((m ++ [lastc]).dropWhile pyIsSpace, q.dropWhile pyIsSpace) := by
  intro m
  induction m with
  | nil =>
      intro lastc d q hchars hlast hd hq1 hq2
      simp only [List.nil_append, List.cons_append]
      rw [matchWsG1]
      rw [if_neg (by simp [hlast])]
      have := matchG1_main [] lastc d q [] hchars hlast hd hq1 hq2
      simp only [List.nil_append, List.cons_append] at this
      rw [this]
      rw [List.dropWhile_cons_of_neg (by simp [hlast])]
      simp
  | cons c m ih =>
      intro lastc d q hchars hlast hd hq1 hq2
      have hstep : ((c :: m) ++ [lastc]) ++ d :: q =
          c :: ((m ++ [lastc]) ++ d :: q) := by simp
      by_cases hw : pyIsSpace c
      · rw [hstep]
        rw [matchWsG1]
        rw [if_pos (by simp [hw])]
        rw [ih lastc d q (fun x hx => hchars x (List.mem_cons_of_mem c hx))
          hlast hd hq1 hq2]
        rw [show ((c :: m) ++ [lastc]).dropWhile pyIsSpace =
            (m ++ [lastc]).dropWhile pyIsSpace from by
          simp only [List.cons_append]
          exact List.dropWhile_cons_of_pos (by simp [hw])]
        rfl
      · rw [hstep]
        rw [matchWsG1]
        rw [if_neg (by simp [hw])]
        have := matchG1_main (c :: m) lastc d q [] hchars hlast hd hq1 hq2
        simp only [List.cons_append, List.nil_append] at this ⊢
        rw [this]
        rw [List.dropWhile_cons_of_neg (by simp [hw])]
        simp

/-- C9 (amended): the dash separator is matched anywhere after the bullet
with optional (possibly zero) surrounding whitespace, so an item line of
the form `-` + name + dash + rest, where the name is non-empty, free of
dashes and newlines, does not end in whitespace, and something other than
whitespace follows the dash, is split at that dash: the stripped name
becomes the item and the stripped rest becomes a non-empty quantity.
(When nothing follows the final dash of a hyphenated name, the regex finds
no separator and the whole name is kept with an empty quantity.) -/
theorem processItem_splits_at_dash (m : List Char) (lastc d : Char)
    (q : List Char)
    (hchars : ∀ c ∈ m ++ [lastc], isDashChar c = false ∧ c ≠ '\n')
    (hlast : pyIsSpace lastc = false)
    (hd : isDashChar d = true)
    (hq1 : '\n' ∉ q)
    (hq2 : ∃ c ∈ q, pyIsSpace c = false) :
    processItem ('-' :: (m ++ [lastc]) ++ d :: q) =
      (pyStrip (m ++ [lastc]), pyStrip q) ∧ pyStrip q ≠ [] := by
  constructor
  · have hstep : ('-' :: (m ++ [lastc])) ++ d :: q =
        '-' :: ((m ++ [lastc]) ++ d :: q) := by simp
    unfold processItem
    rw [hstep, matchItemLine_cons,
      matchWsG1_main m lastc d q hchars hlast hd hq1 hq2]
    have e1 : pyStrip ((m ++ [lastc]).dropWhile pyIsSpace) =
        pyStrip (m ++ [lastc]) := pyStrip_dropWhile _
    have e2 : pyStrip (q.dropWhile pyIsSpace) = pyStrip q := pyStrip_dropWhile _
    simp [e1, e2]
  · exact pyStrip_ne_nil_of_exists q hq2

/-- C9 (witness): `- Whole-wheat bread` splits at the interior hyphen into
item `Whole` and non-empty quantity `wheat bread`. -/
theorem processItem_splits_at_dash_witness :
    processItem ('-' :: (" Whol".data ++ ['e']) ++ '-' :: "wheat bread".data) =
      (pyStrip (" Whol".data ++ ['e']), pyStrip "wheat bread".data) ∧
    pyStrip "wheat bread".data ≠ [] :=
  processItem_splits_at_dash (" Whol".data) 'e' '-' ("wheat bread".data)
    (by decide) (by decide) (by decide) (by decide) (by decide)

/-- C9 (counterexample to the claim as stated): the item line `- Whole-`
has a hyphen in its name, yet the regex does not split it — the pattern
needs at least one character after the dash — so the whole stripped name
is kept with an empty quantity. -/
theorem processItem_dash_at_end_no_split :
    processItem ("- Whole-".data) = ("Whole-".data, []) ∧ '-' ∈ "Whole-".data := by
  refine ⟨by decide, by decide⟩
